import Mathlib

/-!
Verification of the `doo` do-notation expander (src/lib.rs).

The source defines a rewrite rule set (`doo`) with five arms, applied to a
semicolon-separated block of statements, plus two capabilities implemented by
example structures: `Pointed::point` (lift) and `Bind::bind` (sequence), with
instances for `Option`, `Result` and the test-only counting structure `IC`.

Modelling choices:
* A block is a list of statements, each pre-classified by its surface shape,
  one constructor per rewrite arm: `return e ;`, `_ <- e ;`, `name <- e ;`,
  `e ;` (const-bind fallback), and the final unterminated expression.
  Right-hand expressions are opaque payloads of an arbitrary type `E`.
* `doo` is the statement-level expansion: it tries the five arms in the
  source's order and emits the output expression tree (`OutExpr`); `none`
  models expansion-time rejection (no arm matches, or a recursive expansion
  of the rest fails — in the source, the recursive invocation on an empty
  rest matches no arm).
* The statement-level `doo` treats a misplaced `return` as unmatched.  At
  the token level, however, the host language's expr fragment itself parses
  `return e` as an expression, so the const-bind fallback arm matches a
  `return e ;` statement that is followed by further statements.  `dooR`
  models this faithfully (`RustExpr` records whether a matched expression is
  a return-expression); `doo` is proved to agree with `dooR` on every block
  in which `return` occurs only as the last statement.
* `IC.count` is a `usize`.  `IC.bind` models the release-profile semantics
  of the source's count addition (wrapping modulo `USIZE = 2 ^ 64`);
  `IC.bindChecked` models the debug/test-profile semantics, where an
  overflowing addition panics — modelled as `none` — instead of wrapping.
* For evaluation-level claims, `EStmt` is a statement whose expression may
  read previously bound names through an environment `Env A = String → A`
  (closures generated by the expansion bind names lexically; `update`
  models entering a binder). `dooEval` composes the expansion with the
  concrete structure's `bind`/`point`, following the same arm structure
  as `doo`.
* `optionBind`/`resultBind` transcribe `Option::and_then` / `Result::and_then`,
  which the source's `Bind` impls delegate to; `optionPoint`/`resultPoint`
  transcribe the `Pointed` impls; `IC`, `IC.new`, `IC.point`, `IC.bind` and
  `guard` are transcribed from the test module.
-/

namespace Doo

/-- A statement of a `doo` block, pre-classified by surface shape; `E` is the
opaque type of right-hand-side expressions. -/
inductive Stmt (E : Type) where
  | ret (e : E)
  | discard (e : E)
  | bind (name : String) (e : E)
  | stmtExpr (e : E)
  | tail (e : E)

/-- The expression tree emitted by the expansion: `point e` is
`Pointed::point(e)`, `bindCall x b body` is `Bind::bind(x, |b| body)` where
the binder `b` is a name or the wildcard, `raw e` is the expression itself. -/
inductive OutExpr (E : Type) where
  | point (e : E)
  | bindCall (x : E) (binder : Option String) (body : OutExpr E)
  | raw (e : E)

/-- The statement-level expansion, one equation per arm of the source's rule
set, in the source's order; `none` means no arm matches.  For a `return`
statement followed by further statements this differs from token-level arm
matching (see `dooR`): the two agree on every block in which `return`
occurs only as the last statement (`dooR_eq_doo_of_retLastOnly`). -/
def doo {E : Type} : List (Stmt E) → Option (OutExpr E)
  | [Stmt.ret e] => some (OutExpr.point e)
  | Stmt.discard e :: rest => (doo rest).map (OutExpr.bindCall e none)
  | Stmt.bind n e :: rest => (doo rest).map (OutExpr.bindCall e (some n))
  | Stmt.stmtExpr e :: rest => (doo rest).map (OutExpr.bindCall e none)
  | [Stmt.tail e] => some (OutExpr.raw e)
  | _ => none

/-- A right-hand side as the host language's expr fragment parses it: an
opaque payload, or a return-expression `return e` wrapping one (the expr
fragment accepts return-expressions). -/
inductive RustExpr (E : Type) where
  | plain (e : E)
  | retExpr (e : E)

/-- Token-level-faithful expansion.  Identical to `doo` except on a
`return e ;` statement followed by further statements: there the return arm
requires the whole input, the discard and bind arms fail (`return` is not
the wildcard, and no `<-` follows it), and the const-bind fallback arm
matches, its expr fragment parsing the whole `return e` as an expression —
so `Bind::bind(return e, |_| ...)` is emitted rather than nothing. -/
def dooR {E : Type} : List (Stmt E) → Option (OutExpr (RustExpr E))
  | [Stmt.ret e] => some (OutExpr.point (RustExpr.plain e))
  | Stmt.ret e :: r :: rest =>
      (dooR (r :: rest)).map (OutExpr.bindCall (RustExpr.retExpr e) none)
  | Stmt.discard e :: rest => (dooR rest).map (OutExpr.bindCall (RustExpr.plain e) none)
  | Stmt.bind n e :: rest => (dooR rest).map (OutExpr.bindCall (RustExpr.plain e) (some n))
  | Stmt.stmtExpr e :: rest => (dooR rest).map (OutExpr.bindCall (RustExpr.plain e) none)
  | [Stmt.tail e] => some (OutExpr.raw (RustExpr.plain e))
  | _ => none

/-- Whether `return` occurs only as the last statement of the block. -/
def retLastOnly {E : Type} : List (Stmt E) → Bool
  | [] => true
  | Stmt.ret _ :: rest => rest.isEmpty
  | Stmt.discard _ :: rest => retLastOnly rest
  | Stmt.bind _ _ :: rest => retLastOnly rest
  | Stmt.stmtExpr _ :: rest => retLastOnly rest
  | Stmt.tail _ :: rest => retLastOnly rest

/-- Map over the expressions of an output tree. -/
def OutExpr.mapE {E F : Type} (f : E → F) : OutExpr E → OutExpr F
  | OutExpr.point e => OutExpr.point (f e)
  | OutExpr.bindCall x b body => OutExpr.bindCall (f x) b (OutExpr.mapE f body)
  | OutExpr.raw e => OutExpr.raw (f e)

/-- On every block in which `return` occurs only as the last statement, the
token-level expansion `dooR` agrees with the statement-level `doo` (with
each expression injected as a plain expression); so the two models differ
only at blocks with a misplaced `return`. -/
theorem dooR_eq_doo_of_retLastOnly {E : Type} :
    ∀ l : List (Stmt E), retLastOnly l = true →
      dooR l = (doo l).map (OutExpr.mapE RustExpr.plain) := by
  intro l
  induction l with
  | nil => intro h; rfl
  | cons s t ih =>
    intro h
    cases s with
    | ret e =>
      cases t with
      | nil => rfl
      | cons c cs => exact Bool.noConfusion h
    | discard e =>
      simp only [dooR, doo, ih h]
      cases doo t <;> rfl
    | bind n e =>
      simp only [dooR, doo, ih h]
      cases doo t <;> rfl
    | stmtExpr e =>
      simp only [dooR, doo, ih h]
      cases doo t <;> rfl
    | tail e => cases t <;> rfl

/-! ### The example structures -/

/-- `impl Pointed for Option`: `point(a) = Some(a)`. -/
def optionPoint {A : Type} (a : A) : Option A := some a

/-- `impl Bind for Option` delegates to `Option::and_then`:
`Some(x).and_then(f) = f(x)`, `None.and_then(f) = None`. -/
def optionBind {A B : Type} (x : Option A) (f : A → Option B) : Option B :=
  match x with
  | some a => f a
  | none => none

/-- Rust's `Result` type. -/
inductive Result (A E : Type) where
  | Ok (a : A)
  | Err (e : E)

/-- `impl Pointed for Result`: `point(a) = Ok(a)`. -/
def resultPoint {A E : Type} (a : A) : Result A E := Result.Ok a

/-- `impl Bind for Result` delegates to `Result::and_then`:
`Ok(a).and_then(f) = f(a)`, `Err(e).and_then(f) = Err(e)`. -/
def resultBind {A B E : Type} (x : Result A E) (f : A → Result B E) : Result B E :=
  match x with
  | Result.Ok a => f a
  | Result.Err e => Result.Err e

/-- Whether a `Result` is in the `Err` short-circuit state. -/
def Result.isErr {A E : Type} : Result A E → Bool
  | Result.Ok _ => false
  | Result.Err _ => true

/-- `guard` from the `result` test: `Ok(())` when the condition holds,
`Err(err)` otherwise. -/
def guard {E : Type} (cond : Bool) (err : E) : Result Unit E :=
  if cond then Result.Ok () else Result.Err err

/-- The modulus of the source's `usize` count (64-bit targets). -/
def USIZE : Nat := 2 ^ 64

/-- The instruction-counting structure from the `instruction_counter` test;
`count` is a `usize` in the source, so it is kept below `USIZE` by the
arithmetic of the operations. -/
structure IC (A : Type) where
  count : Nat
  value : A

/-- `IC::new`: a fresh instance with count 1. -/
def IC.new {A : Type} (value : A) : IC A := { count := 1, value := value }

/-- `impl Pointed for IC`: `point(a) = IC::new(a)`. -/
def IC.point {A : Type} (a : A) : IC A := IC.new a

/-- `impl Bind for IC`: run the continuation once on the value and sum the
counts.  The count is a `usize`, so under the release profile the source's
addition wraps modulo `USIZE`; the debug/test profile panics on overflow
instead (see `IC.bindChecked`). -/
def IC.bind {A B : Type} (x : IC A) (f : A → IC B) : IC B :=
  let r := f x.value
  { count := (x.count + r.count) % USIZE, value := r.value }

/-- `impl Bind for IC` under the debug/test profile, where the `usize`
addition panics on overflow rather than wrapping: `none` models the panic,
and on `some` the count is the exact sum. -/
def IC.bindChecked {A B : Type} (x : IC A) (f : A → IC B) : Option (IC B) :=
  if x.count + (f x.value).count < USIZE then
    some { count := x.count + (f x.value).count, value := (f x.value).value }
  else
    none

/-! ### Evaluation-level blocks -/

/-- An environment for the names bound so far (monomorphic payload `A`). -/
def Env (A : Type) := String → A

/-- Entering the closure `|n| ...` binds `n`, shadowing any outer binding. -/
def update {A : Type} (env : Env A) (n : String) (a : A) : Env A :=
  fun m => if m = n then a else env m

/-- An evaluation-level statement over a structure type `S` with payload `A`:
its expression may read the names bound so far.  A `ret` expression is a bare
payload value (it gets lifted); the others are values of the structure. -/
inductive EStmt (S A : Type) where
  | ret (e : Env A → A)
  | discard (e : Env A → S)
  | bind (name : String) (e : Env A → S)
  | stmtExpr (e : Env A → S)
  | tail (e : Env A → S)

/-- Whether the expansion of a block succeeds (mirrors the domain of `doo`:
the arms that can lead to an emitted expression). -/
def wfE {S A : Type} : List (EStmt S A) → Bool
  | [EStmt.ret _] => true
  | EStmt.discard _ :: r :: rest => wfE (r :: rest)
  | EStmt.bind _ _ :: r :: rest => wfE (r :: rest)
  | EStmt.stmtExpr _ :: r :: rest => wfE (r :: rest)
  | [EStmt.tail _] => true
  | _ => false

/-- Evaluation of the expanded block over a structure with sequence `bd` and
lift `pt`: the same arm structure as `doo`, with each emitted `Bind::bind`
call evaluated, and each generated closure binding its name in the
environment.  `dflt` is returned on blocks whose expansion is rejected. -/
def dooEval {S A : Type} (bd : S → (A → S) → S) (pt : A → S) (dflt : S) :
    List (EStmt S A) → Env A → S
  | [EStmt.ret e], env => pt (e env)
  | EStmt.discard e :: r :: rest, env =>
      bd (e env) (fun _ => dooEval bd pt dflt (r :: rest) env)
  | EStmt.bind n e :: r :: rest, env =>
      bd (e env) (fun a => dooEval bd pt dflt (r :: rest) (update env n a))
  | EStmt.stmtExpr e :: r :: rest, env =>
      bd (e env) (fun _ => dooEval bd pt dflt (r :: rest) env)
  | [EStmt.tail e], env => e env
  | _, _ => dflt

/-- The surface shape of an evaluation-level statement. -/
def shape {S A : Type} : EStmt S A → Stmt Unit
  | EStmt.ret _ => Stmt.ret ()
  | EStmt.discard _ => Stmt.discard ()
  | EStmt.bind n _ => Stmt.bind n ()
  | EStmt.stmtExpr _ => Stmt.stmtExpr ()
  | EStmt.tail _ => Stmt.tail ()

theorem isSome_map {α β : Type} (g : α → β) (o : Option α) :
    (o.map g).isSome = o.isSome := by
  cases o <;> rfl

theorem shape_discard {S A : Type} (e : Env A → S) :
    shape (EStmt.discard e) = Stmt.discard () := rfl

theorem shape_bind {S A : Type} (n : String) (e : Env A → S) :
    shape (EStmt.bind n e) = Stmt.bind n () := rfl

theorem shape_stmtExpr {S A : Type} (e : Env A → S) :
    shape (EStmt.stmtExpr e) = Stmt.stmtExpr () := rfl

/-- Sanity link between the two layers: a block's evaluation is defined
(`wfE`) exactly when the syntactic expansion of its shape succeeds. -/
theorem wfE_eq_isSome_doo_shape {S A : Type} :
    ∀ l : List (EStmt S A), wfE l = (doo (l.map shape)).isSome := by
  intro l
  induction l with
  | nil => rfl
  | cons s t ih =>
    cases t with
    | nil => cases s <;> rfl
    | cons h t2 =>
      rw [List.map_cons] at ih
      cases s with
      | ret e => rfl
      | tail e => rfl
      | discard e =>
        simp only [wfE, List.map_cons, shape_discard, doo, isSome_map]
        exact ih
      | bind n e =>
        simp only [wfE, List.map_cons, shape_bind, doo, isSome_map]
        exact ih
      | stmtExpr e =>
        simp only [wfE, List.map_cons, shape_stmtExpr, doo, isSome_map]
        exact ih

/-! ### Claims -/

/-- Claim C1 (bind nesting): expanding `a <- E1; a <- E2; E3` (reusing the
name `a`) produces exactly `Bind::bind(E1, |a| Bind::bind(E2, |a| E3))`;
and, evaluated over the `Option` structure, the expression of the second
statement still sees the first binding of `a` (only the inner continuation
is shadowed) while the tail sees the second binding. -/
theorem bind_nesting_shadowing :
    (∀ (E : Type) (e1 e2 e3 : E),
      doo [Stmt.bind "a" e1, Stmt.bind "a" e2, Stmt.tail e3] =
        some (OutExpr.bindCall e1 (some "a")
          (OutExpr.bindCall e2 (some "a") (OutExpr.raw e3)))) ∧
    (∀ (v1 : Nat) (env0 : Env Nat),
      dooEval optionBind optionPoint none
        [EStmt.bind "a" (fun _ => some v1),
         EStmt.bind "a" (fun env => some (env "a" + 10)),
         EStmt.tail (fun env => some (env "a"))] env0 = some (v1 + 10)) := by
  constructor
  · intro E e1 e2 e3
    rfl
  · intro v1 env0
    rfl

/-- Claim C3 (return lift): expanding a block whose sole statement is
`return e ;` yields exactly `Pointed::point(e)`; `point` wraps in `Some`
for `Option` and in `Ok` for `Result`. -/
theorem return_lift :
    (∀ (E : Type) (e : E), doo [Stmt.ret e] = some (OutExpr.point e)) ∧
    (∀ (A : Type) (a : A), optionPoint a = some a) ∧
    (∀ (A E : Type) (a : A), (resultPoint a : Result A E) = Result.Ok a) := by
  refine ⟨fun E e => rfl, fun A a => rfl, fun A E a => rfl⟩

/-- Claim C4 (discard equivalence): for every expression `e` and statement
sequence `rest`, expanding `_ <- e ; rest` and expanding `e ; rest` produce
structurally identical output, both of the form
`Bind::bind(e, |_| Expand(rest))`. -/
theorem discard_equivalence :
    ∀ (E : Type) (e : E) (rest : List (Stmt E)),
      doo (Stmt.discard e :: rest) = doo (Stmt.stmtExpr e :: rest) ∧
      doo (Stmt.discard e :: rest) = (doo rest).map (OutExpr.bindCall e none) := by
  intro E e rest
  exact ⟨rfl, rfl⟩

/-- Claim C5 (tail identity): expanding a single-statement block consisting
of one unterminated expression yields exactly that expression, unmodified. -/
theorem tail_identity :
    ∀ (E : Type) (e : E), doo [Stmt.tail e] = some (OutExpr.raw e) := by
  intro E e
  rfl

/-- Claim C6 counterexample: the block `return 0 ; 1` is not rejected by
the rewrite rule set — the const-bind fallback arm matches `return 0` as an
expression, a rule matches and an output expression is produced. -/
theorem return_followed_counterexample :
    dooR [Stmt.ret (0 : Nat), Stmt.tail 1] =
      some (OutExpr.bindCall (RustExpr.retExpr 0) none
        (OutExpr.raw (RustExpr.plain 1))) ∧
    (dooR [Stmt.ret (0 : Nat), Stmt.tail 1]).isSome = true := by
  exact ⟨rfl, rfl⟩

/-- Claim C6 (amended): a block in which a `return e ;` statement is
followed by further statements is not rejected at expansion time: the
return arm fails to match, but the const-bind fallback arm matches the
whole `return e` as a host-language expression, and the expansion emits
`Bind::bind(return e, |_| Expand(rest))`; rejection, if any, happens later,
in the host language's type checking of the emitted code. -/
theorem return_followed_const_bind :
    ∀ (E : Type) (e : E) (s : Stmt E) (rest : List (Stmt E)),
      dooR (Stmt.ret e :: s :: rest) =
        (dooR (s :: rest)).map (OutExpr.bindCall (RustExpr.retExpr e) none) := by
  intro E e s rest
  rfl

/-- Claim C7 (counting example): the block
`a <- IC::new(10); b <- IC::new(2); IC::new(a + b)` over the counting
structure evaluates to value 12 and count 3. -/
theorem instruction_counter_example :
    (dooEval IC.bind IC.point (IC.new 0)
      [EStmt.bind "a" (fun _ => IC.new 10),
       EStmt.bind "b" (fun _ => IC.new 2),
       EStmt.tail (fun env => IC.new (env "a" + env "b"))]
      (fun _ => 0)).value = 12 ∧
    (dooEval IC.bind IC.point (IC.new 0)
      [EStmt.bind "a" (fun _ => IC.new 10),
       EStmt.bind "b" (fun _ => IC.new 2),
       EStmt.tail (fun env => IC.new (env "a" + env "b"))]
      (fun _ => 0)).count = 3 := by
  exact ⟨rfl, rfl⟩

/-- Claim C8 (guard example): the block `x <- Ok(1); _ <- guard(false, "bad"); Ok(x)`
expands to `Bind::bind(Ok(1), |x| Bind::bind(guard(false, "bad"), |_| Ok(x)))`,
which evaluates to `Err("bad")` over the `Result` structure, and the
continuation following the guard statement is never invoked (the result is
`Err("bad")` whatever that continuation is). -/
theorem guard_short_circuit_example :
    (∀ (E : Type) (e1 e2 e3 : E),
      doo [Stmt.bind "x" e1, Stmt.discard e2, Stmt.tail e3] =
        some (OutExpr.bindCall e1 (some "x")
          (OutExpr.bindCall e2 none (OutExpr.raw e3)))) ∧
    resultBind (Result.Ok (1 : Nat))
      (fun x => resultBind (guard false "bad") (fun _ => Result.Ok x)) =
      Result.Err "bad" ∧
    (∀ (B : Type) (k : Unit → Result B String),
      resultBind (guard false "bad") k = Result.Err "bad") := by
  refine ⟨fun E e1 e2 e3 => rfl, rfl, fun B k => rfl⟩

/-- Claim C9 (left identity): lifting with `point` and then sequencing with
`bind` applies the continuation directly, for `Option` and for `Result`;
in particular lifting never produces a short-circuit state. -/
theorem point_bind_left_identity :
    (∀ (A B : Type) (a : A) (f : A → Option B), optionBind (optionPoint a) f = f a) ∧
    (∀ (A B E : Type) (a : A) (f : A → Result B E),
      resultBind (resultPoint a) f = f a) ∧
    (∀ (A : Type) (a : A), (optionPoint a).isSome = true) ∧
    (∀ (A E : Type) (a : A), ((resultPoint a : Result A E)).isErr = false) := by
  exact ⟨fun A B a f => rfl, fun A B E a f => rfl, fun A a => rfl, fun A E a => rfl⟩

/-! ### Short-circuit propagation through whole blocks (C2) -/

/-- A non-final statement whose expression is the `Option` short-circuit
state `none` under every environment. -/
def shortO {A : Type} : EStmt (Option A) A → Prop
  | EStmt.discard e => ∀ env, e env = none
  | EStmt.bind _ e => ∀ env, e env = none
  | EStmt.stmtExpr e => ∀ env, e env = none
  | _ => False

/-- A non-final statement whose expression is in the `Result` short-circuit
state `Err` under every environment. -/
def shortR {A E : Type} : EStmt (Result A E) A → Prop
  | EStmt.discard e => ∀ env, (e env).isErr = true
  | EStmt.bind _ e => ∀ env, (e env).isErr = true
  | EStmt.stmtExpr e => ∀ env, (e env).isErr = true
  | _ => False

theorem dooEval_option_absent {A : Type} (dflt : Option A) :
    ∀ (pre : List (EStmt (Option A) A)) (s : EStmt (Option A) A)
      (post : List (EStmt (Option A) A)) (env : Env A),
      shortO s → post ≠ [] → wfE (pre ++ s :: post) = true →
      dooEval optionBind optionPoint dflt (pre ++ s :: post) env = none := by
  intro pre
  induction pre with
  | nil =>
    intro s post env hs hpost hwf
    obtain ⟨p, ps, rfl⟩ := List.exists_cons_of_ne_nil hpost
    cases s with
    | ret e => exact absurd hs id
    | tail e => exact absurd hs id
    | discard e => simp only [List.nil_append, dooEval, hs env, optionBind]
    | bind n e => simp only [List.nil_append, dooEval, hs env, optionBind]
    | stmtExpr e => simp only [List.nil_append, dooEval, hs env, optionBind]
  | cons q pre ih =>
    intro s post env hs hpost hwf
    have hne : pre ++ s :: post ≠ [] := by
      cases pre <;> simp
    obtain ⟨c, cs, hcc⟩ := List.exists_cons_of_ne_nil hne
    rw [List.cons_append, hcc] at hwf ⊢
    cases q with
    | ret e => simp [wfE] at hwf
    | tail e => simp [wfE] at hwf
    | discard e =>
      have hnone : ∀ env2 : Env A,
          dooEval optionBind optionPoint dflt (c :: cs) env2 = none := by
        intro env2
        rw [← hcc]
        exact ih s post env2 hs hpost (by rw [hcc]; simpa [wfE] using hwf)
      simp only [dooEval, hnone]
      cases e env <;> rfl
    | bind n e =>
      have hnone : ∀ env2 : Env A,
          dooEval optionBind optionPoint dflt (c :: cs) env2 = none := by
        intro env2
        rw [← hcc]
        exact ih s post env2 hs hpost (by rw [hcc]; simpa [wfE] using hwf)
      simp only [dooEval, hnone]
      cases e env <;> rfl
    | stmtExpr e =>
      have hnone : ∀ env2 : Env A,
          dooEval optionBind optionPoint dflt (c :: cs) env2 = none := by
        intro env2
        rw [← hcc]
        exact ih s post env2 hs hpost (by rw [hcc]; simpa [wfE] using hwf)
      simp only [dooEval, hnone]
      cases e env <;> rfl

theorem dooEval_result_err {A E : Type} (dflt : Result A E) :
    ∀ (pre : List (EStmt (Result A E) A)) (s : EStmt (Result A E) A)
      (post : List (EStmt (Result A E) A)) (env : Env A),
      shortR s → post ≠ [] → wfE (pre ++ s :: post) = true →
      (dooEval resultBind resultPoint dflt (pre ++ s :: post) env).isErr = true := by
  intro pre
  induction pre with
  | nil =>
    intro s post env hs hpost hwf
    obtain ⟨p, ps, rfl⟩ := List.exists_cons_of_ne_nil hpost
    cases s with
    | ret e => exact absurd hs id
    | tail e => exact absurd hs id
    | discard e =>
      simp only [List.nil_append, dooEval]
      have h1 : (e env).isErr = true := hs env
      cases he : e env with
      | Ok a => rw [he] at h1; exact absurd h1 (by simp [Result.isErr])
      | Err e2 => simp [resultBind, Result.isErr]
    | bind n e =>
      simp only [List.nil_append, dooEval]
      have h1 : (e env).isErr = true := hs env
      cases he : e env with
      | Ok a => rw [he] at h1; exact absurd h1 (by simp [Result.isErr])
      | Err e2 => simp [resultBind, Result.isErr]
    | stmtExpr e =>
      simp only [List.nil_append, dooEval]
      have h1 : (e env).isErr = true := hs env
      cases he : e env with
      | Ok a => rw [he] at h1; exact absurd h1 (by simp [Result.isErr])
      | Err e2 => simp [resultBind, Result.isErr]
  | cons q pre ih =>
    intro s post env hs hpost hwf
    have hne : pre ++ s :: post ≠ [] := by
      cases pre <;> simp
    obtain ⟨c, cs, hcc⟩ := List.exists_cons_of_ne_nil hne
    rw [List.cons_append, hcc] at hwf ⊢
    cases q with
    | ret e => simp [wfE] at hwf
    | tail e => simp [wfE] at hwf
    | discard e =>
      have herr : ∀ env2 : Env A,
          (dooEval resultBind resultPoint dflt (c :: cs) env2).isErr = true := by
        intro env2
        rw [← hcc]
        exact ih s post env2 hs hpost (by rw [hcc]; simpa [wfE] using hwf)
      simp only [dooEval]
      cases e env with
      | Ok a => simpa [resultBind] using herr env
      | Err e2 => simp [resultBind, Result.isErr]
    | bind n e =>
      have herr : ∀ env2 : Env A,
          (dooEval resultBind resultPoint dflt (c :: cs) env2).isErr = true := by
        intro env2
        rw [← hcc]
        exact ih s post env2 hs hpost (by rw [hcc]; simpa [wfE] using hwf)
      simp only [dooEval]
      cases e env with
      | Ok a => simpa [resultBind] using herr (update env n a)
      | Err e2 => simp [resultBind, Result.isErr]
    | stmtExpr e =>
      have herr : ∀ env2 : Env A,
          (dooEval resultBind resultPoint dflt (c :: cs) env2).isErr = true := by
        intro env2
        rw [← hcc]
        exact ih s post env2 hs hpost (by rw [hcc]; simpa [wfE] using hwf)
      simp only [dooEval]
      cases e env with
      | Ok a => simpa [resultBind] using herr env
      | Err e2 => simp [resultBind, Result.isErr]

/-- Claim C2 (short-circuit propagation): for `Option` and `Result`, `bind`
on a short-circuit state returns that state unchanged without invoking the
continuation (the continuation is arbitrary); consequently any well-formed
block with a short-circuiting statement before the last evaluates to the
propagated short-circuit state (`none` for `Option`; an `Err` for `Result`),
whatever the statements after it are. -/
theorem short_circuit_propagation :
    (∀ (A B : Type) (f : A → Option B), optionBind none f = none) ∧
    (∀ (A B E : Type) (e : E) (f : A → Result B E),
      resultBind (Result.Err e) f = Result.Err e) ∧
    (∀ (A : Type) (dflt : Option A) (pre : List (EStmt (Option A) A))
       (s : EStmt (Option A) A) (post : List (EStmt (Option A) A)) (env : Env A),
      shortO s → post ≠ [] → wfE (pre ++ s :: post) = true →
      dooEval optionBind optionPoint dflt (pre ++ s :: post) env = none) ∧
    (∀ (A E : Type) (dflt : Result A E) (pre : List (EStmt (Result A E) A))
       (s : EStmt (Result A E) A) (post : List (EStmt (Result A E) A)) (env : Env A),
      shortR s → post ≠ [] → wfE (pre ++ s :: post) = true →
      (dooEval resultBind resultPoint dflt (pre ++ s :: post) env).isErr = true) := by
  refine ⟨fun A B f => rfl, fun A B E e f => rfl, ?_, ?_⟩
  · intro A dflt pre s post env
    exact dooEval_option_absent dflt pre s post env
  · intro A E dflt pre s post env
    exact dooEval_result_err dflt pre s post env

/-- A closed instance of C2: the block `x <- Some(1); _ <- None; Some(x)`
evaluates to `none`. -/
theorem short_circuit_propagation_witness :
    dooEval optionBind optionPoint none
      ([EStmt.bind "x" (fun _ => some 1)] ++
        EStmt.discard (fun _ => (none : Option Nat)) ::
          [EStmt.tail (fun env => some (env "x"))])
      (fun _ => 0) = none :=
  short_circuit_propagation.2.2.1 Nat none
    [EStmt.bind "x" (fun _ => some 1)]
    (EStmt.discard (fun _ => (none : Option Nat)))
    [EStmt.tail (fun env => some (env "x"))]
    (fun _ => 0)
    (fun _ => rfl)
    (by simp)
    rfl

/-! ### The counting-structure invariant (C10) -/

/-- `IC` values reachable through the public operations `IC::new`,
`Pointed::point` and `Bind::bind` (with reachable continuation results),
under the release-profile (wrapping) arithmetic of `IC.bind`. -/
inductive ICReach {A : Type} : IC A → Prop where
  | new (v : A) : ICReach (IC.new v)
  | point (a : A) : ICReach (IC.point a)
  | bind (x : IC A) (f : A → IC A) (hx : ICReach x) (hf : ∀ a, ICReach (f a)) :
      ICReach (IC.bind x f)

/-- `IC` values successfully constructed through the public operations under
the debug/test-profile (checked) arithmetic: an overflowing `bind` panics
and yields no value. -/
inductive ICCheckedReach {A : Type} : IC A → Prop where
  | new (v : A) : ICCheckedReach (IC.new v)
  | point (a : A) : ICCheckedReach (IC.point a)
  | bind (x : IC A) (f : A → IC A) (y : IC A) (hx : ICCheckedReach x)
      (hf : ∀ a, ICCheckedReach (f a)) (hy : IC.bindChecked x f = some y) :
      ICCheckedReach y

/-- A fresh instance bound through `n` further fresh instances under the
wrapping arithmetic. -/
def chainWrap : Nat → IC Nat
  | 0 => IC.new 0
  | n + 1 => IC.bind (chainWrap n) (fun _ => IC.new 0)

theorem chainWrap_count : ∀ n : Nat, (chainWrap n).count = (n + 1) % USIZE := by
  intro n
  induction n with
  | zero => rfl
  | succ n ih =>
    show ((chainWrap n).count + (IC.new 0).count) % USIZE = (n + 1 + 1) % USIZE
    rw [ih]
    exact Nat.mod_add_mod (n + 1) USIZE 1

theorem chainWrap_reach : ∀ n : Nat, ICReach (chainWrap n) := by
  intro n
  induction n with
  | zero => exact ICReach.new 0
  | succ n ih =>
    exact ICReach.bind (chainWrap n) (fun _ => IC.new 0) ih (fun a => ICReach.new 0)

/-- Claim C10 counterexample: under the wrapping (release-profile) `usize`
arithmetic of the source's count addition, the value reached by binding a
fresh instance through `USIZE - 1` further fresh instances has count 0 —
the claimed `count >= 1` invariant over all reachable values fails, as does
the claimed exact (unbounded) sum. -/
theorem ic_count_invariant_counterexample :
    ICReach (chainWrap (USIZE - 1)) ∧ (chainWrap (USIZE - 1)).count = 0 := by
  refine ⟨chainWrap_reach (USIZE - 1), ?_⟩
  rw [chainWrap_count, Nat.sub_add_cancel (by decide : 1 ≤ USIZE), Nat.mod_self]

/-- Claim C10 (amended): `IC::new` and `point` produce count exactly 1, and
`bind` invokes its continuation exactly once — its result is determined by
the continuation's value at the operand's payload.  The count, a `usize`,
is bounded: under the release (wrapping) profile `bind` returns the sum of
the two counts modulo `USIZE`, and under the debug/test (checked) profile
it returns the exact sum whenever that sum fits in a `usize` (panicking
otherwise), so that every value successfully constructed through the
checked operations has `1 <= count < USIZE`. -/
theorem ic_count_invariant_amended :
    (∀ (A : Type) (v : A), (IC.new v).count = 1) ∧
    (∀ (A : Type) (a : A), (IC.point a).count = 1) ∧
    (∀ (A B : Type) (x : IC A) (f : A → IC B),
      (IC.bind x f).count = (x.count + (f x.value).count) % USIZE ∧
      (IC.bind x f).value = (f x.value).value) ∧
    (∀ (A B : Type) (x : IC A) (f : A → IC B) (y : IC B),
      IC.bindChecked x f = some y →
      y.count = x.count + (f x.value).count ∧ y.value = (f x.value).value) ∧
    (∀ (A : Type) (x : IC A), ICCheckedReach x → 1 ≤ x.count ∧ x.count < USIZE) := by
  refine ⟨fun A v => rfl, fun A a => rfl, fun A B x f => ⟨rfl, rfl⟩, ?_, ?_⟩
  · intro A B x f y hy
    simp only [IC.bindChecked] at hy
    by_cases hlt : x.count + (f x.value).count < USIZE
    · rw [if_pos hlt] at hy
      injection hy with h
      subst h
      exact ⟨rfl, rfl⟩
    · rw [if_neg hlt] at hy
      exact Option.noConfusion hy
  · intro A x hx
    induction hx with
    | new v => exact ⟨Nat.le_refl 1, (by decide : (1 : Nat) < USIZE)⟩
    | point a => exact ⟨Nat.le_refl 1, (by decide : (1 : Nat) < USIZE)⟩
    | bind x f y hx hf hy ihx ihf =>
      simp only [IC.bindChecked] at hy
      by_cases hlt : x.count + (f x.value).count < USIZE
      · rw [if_pos hlt] at hy
        injection hy with h
        subst h
        refine ⟨?_, hlt⟩
        calc 1 ≤ x.count := ihx.1
        _ ≤ x.count + (f x.value).count := Nat.le_add_right _ _
      · rw [if_neg hlt] at hy
        exact Option.noConfusion hy

/-- A closed instance of C10 (amended): a checked bind of two fresh
instances yields the exact sum 2 and the new-instance bound, and a fresh
instance satisfies the count bounds. -/
theorem ic_count_invariant_amended_witness :
    ((⟨2, 6⟩ : IC Nat).count =
        (IC.new 5).count + ((fun a => IC.new (a + 1)) (IC.new 5).value).count ∧
      (⟨2, 6⟩ : IC Nat).value = ((fun a => IC.new (a + 1)) (IC.new 5).value).value) ∧
    (1 ≤ (IC.new (5 : Nat)).count ∧ (IC.new (5 : Nat)).count < USIZE) :=
  ⟨ic_count_invariant_amended.2.2.2.1 Nat Nat (IC.new 5)
      (fun a => IC.new (a + 1)) ⟨2, 6⟩ rfl,
    ic_count_invariant_amended.2.2.2.2 Nat (IC.new 5) (ICCheckedReach.new 5)⟩

end Doo
